import Mathlib

/-!
Verification of the stock-scanner core against its specification.

The development shallowly embeds the pure logic of the repository:

* `stock_scanner/analyze_results.py` — signal-timing validation
  (`get_valid_entry_price`), forward-outcome simulation
  (`calculate_outcome`) and the per-ticker metric block of
  `analyze_single_ticker`;
* `src/detector.py` — the flag computation of
  `PatternDetector._find_pattern_in_window` (convergence, compression,
  breakout age) and `_filter_significant_extrema`;
* `src/scorer.py` — `ScoringEngine.calculate_score` with its default
  configuration;
* `src/filters.py` — `FilterEngine.apply_coarse_filters`,
  `_process_ticker` and `_is_trend_bullish`.

Machine reals (Python floats) are modelled as rationals; calendar dates
are modelled as integer day numbers with `weekday d = d % 7`,
`0 = Monday … 6 = Sunday` (the convention of Python's `date.weekday`).
Remote fetches and per-ticker exceptions are modelled as `Option`
results.
-/

namespace StockScanner

/-! ### Calendar / timing model (`get_valid_entry_price`) -/

/-- Python `date.weekday`: day numbers are integers, `0 = Monday`,
`6 = Sunday`; consecutive days differ by one. -/
def weekday (d : ℤ) : ℤ := d % 7

/-- Market open, 09:30 ET, as minutes after midnight (`time(9, 30)`). -/
def marketOpenMin : ℕ := 9 * 60 + 30

/-- Market close, 16:00 ET, as minutes after midnight (`time(16, 0)`). -/
def marketCloseMin : ℕ := 16 * 60

/-- `local_dt.weekday() < 5` — Monday through Friday. -/
def isMarketDay (d : ℤ) : Bool := decide (weekday d < 5)

/-- `is_market_day and market_open <= local_time < market_close`. -/
def duringMarketHours (d : ℤ) (t : ℕ) : Bool :=
  isMarketDay d && decide (marketOpenMin ≤ t) && decide (t < marketCloseMin)

/-- The weekend roll-back loop `while reference_date.weekday() >= 5:
reference_date -= timedelta(days=1)`, run with enough fuel (a week) to
cover every starting weekday. -/
def rollBackAux : ℕ → ℤ → ℤ
  | 0, d => d
  | n + 1, d => if 5 ≤ weekday d then rollBackAux n (d - 1) else d

/-- Roll a weekend date back to the preceding weekday. -/
def rollBackWeekend (d : ℤ) : ℤ := rollBackAux 7 d

/-- Reference-date computation of `get_valid_entry_price` (step 3):
weekend → roll back to the last weekday; at or after close → same day;
otherwise (before open, market hours being excluded upstream) →
previous calendar day. -/
def referenceDate (d : ℤ) (t : ℕ) : ℤ :=
  if 5 ≤ weekday d then rollBackWeekend d
  else if marketCloseMin ≤ t then d
  else d - 1

/-- Timing gate of `get_valid_entry_price`: during regular trading
hours on a weekday the signal is invalid (`none`, the code returns an
error message and `reference_date = None`); otherwise the computed
reference date is returned. -/
def getValidEntryRef (d : ℤ) (t : ℕ) : Option ℤ :=
  if duringMarketHours d t then none else some (referenceDate d t)

/-- Step 4 of `get_valid_entry_price`: fetch the range
`[reference_date - 10, reference_date + 1)` (yfinance end-exclusive, so
row dates lie in `[ref - 10, ref]`), sort by date and take the last
row.  `bars` is the sorted list of available trading rows
`(date, close)`. -/
def entryBar (bars : List (ℤ × ℚ)) (ref : ℤ) : Option (ℤ × ℚ) :=
  (bars.filter (fun b => decide (ref - 10 ≤ b.1) && decide (b.1 ≤ ref))).getLast?

/-- `get_valid_entry_price` final result: `(entry_price,
actual_trade_date, reference_date)` on success, `none` on an invalid
timing or an empty fetched window. -/
def getValidEntryPrice (bars : List (ℤ × ℚ)) (d : ℤ) (t : ℕ) :
    Option (ℚ × ℤ × ℤ) :=
  match getValidEntryRef d t with
  | none => none
  | some ref =>
    match entryBar bars ref with
    | none => none
    | some b => some (b.2, b.1, ref)

/-! ### Helper lemmas on sorted bar lists -/

theorem getLast?_mem {α : Type} {l : List α} {b : α} (h : l.getLast? = some b) :
    b ∈ l := by
  induction l with
  | nil => simp at h
  | cons a rest ih =>
    cases rest with
    | nil => simp [List.getLast?] at h; simp [h]
    | cons c rest2 =>
      rw [List.getLast?_cons_cons] at h
      exact List.mem_cons_of_mem a (ih h)

theorem getLast?_sorted_max {l : List (ℤ × ℚ)}
    (hs : l.Pairwise (fun a b => a.1 < b.1)) {b : ℤ × ℚ}
    (h : l.getLast? = some b) : ∀ x ∈ l, x.1 ≤ b.1 := by
  induction l with
  | nil => simp at h
  | cons a rest ih =>
    cases rest with
    | nil =>
      simp [List.getLast?] at h
      intro x hx
      simp at hx
      simp [hx, h]
    | cons c rest2 =>
      rw [List.getLast?_cons_cons] at h
      intro x hx
      rcases List.mem_cons.mp hx with hxa | hxr
      · subst hxa
        have hb : b ∈ c :: rest2 := getLast?_mem h
        have := (List.pairwise_cons.mp hs).1 b hb
        exact le_of_lt this
      · exact ih (List.pairwise_cons.mp hs).2 h x hxr

theorem getLast?_sorted_eq_max {l : List (ℤ × ℚ)}
    (hs : l.Pairwise (fun a b => a.1 < b.1)) {m : ℤ × ℚ}
    (hm : m ∈ l) (hmax : ∀ x ∈ l, x.1 ≤ m.1) : l.getLast? = some m := by
  induction l with
  | nil => simp at hm
  | cons a rest ih =>
    cases rest with
    | nil =>
      simp at hm
      simp [hm, List.getLast?]
    | cons c rest2 =>
      rw [List.getLast?_cons_cons]
      have hrest : m ∈ c :: rest2 := by
        rcases List.mem_cons.mp hm with hma | hmr
        · exfalso
          subst hma
          have hc : c ∈ c :: rest2 := List.mem_cons_self c rest2
          have hlt := (List.pairwise_cons.mp hs).1 c hc
          have hle := hmax c (List.mem_cons_of_mem _ hc)
          exact absurd hlt (not_lt.mpr hle)
        · exact hmr
      exact ih (List.pairwise_cons.mp hs).2 hrest
        (fun x hx => hmax x (List.mem_cons_of_mem _ hx))

end StockScanner

namespace StockScanner

/-! ### Claims C1 and C2: signal-timing state machine -/

/-- C1 counterexample: a signal at 08:00 ET on a Monday (day 7,
`weekday 7 = 0`, 480 minutes past midnight).  The code sets
`reference_date` to the previous calendar day, the Sunday (day 6,
`weekday 6 = 6`), not the prior Friday (day 4): before market open on a
weekday the code subtracts exactly one day and never rolls a non-weekend
date back to a weekday. -/
theorem C1_cex :
    getValidEntryRef 7 480 = some 6 ∧ weekday 6 = 6 ∧ (6 : ℤ) ≠ 4 := by
  refine ⟨?_, by decide, by decide⟩
  decide

/-- C1 (amended): for a signal whose US/Eastern timestamp is 08:00 on a
Monday, `get_valid_entry_price` computes `reference_date` equal to the
previous calendar day — the Sunday, not the prior Friday — and the
entry bar is the last trading row with date at or before that
reference date (within the ten-day fetch window); since trading rows
fall on weekdays only, that bar's date is at most the prior Friday, and
when the prior Friday itself has a trading row it is exactly that
row. -/
theorem C1_amended (d : ℤ) (bars : List (ℤ × ℚ))
    (hd : weekday d = 0)
    (hs : bars.Pairwise (fun a b => a.1 < b.1))
    (htrade : ∀ b ∈ bars, weekday b.1 < 5) :
    getValidEntryRef d 480 = some (d - 1) ∧
    weekday (d - 1) = 6 ∧
    (∀ b, entryBar bars (d - 1) = some b →
      b ∈ bars ∧ b.1 ≤ d - 3 ∧ d - 11 ≤ b.1 ∧
      ∀ y ∈ bars, d - 11 ≤ y.1 → y.1 ≤ d - 1 → y.1 ≤ b.1) ∧
    (∀ c : ℚ, (d - 3, c) ∈ bars → entryBar bars (d - 1) = some (d - 3, c)) := by
  have hnotmh : duringMarketHours d 480 = false := by
    simp [duringMarketHours, marketOpenMin]
  have href : referenceDate d 480 = d - 1 := by
    simp [referenceDate, hd, marketOpenMin, marketCloseMin]
  have hwk : weekday (d - 1) = 6 := by
    unfold weekday at hd ⊢
    omega
  refine ⟨by simp [getValidEntryRef, hnotmh, href], hwk, ?_, ?_⟩
  · intro b hb
    unfold entryBar at hb
    have hbf := getLast?_mem hb
    rw [List.mem_filter] at hbf
    obtain ⟨hbmem, hbp⟩ := hbf
    have hbp2 : d - 1 - 10 ≤ b.1 ∧ b.1 ≤ d - 1 := by
      simpa [Bool.and_eq_true, decide_eq_true_eq] using hbp
    have hb5 := htrade b hbmem
    unfold weekday at hb5 hd
    have hble3 : b.1 ≤ d - 3 := by omega
    have hmax := getLast?_sorted_max (hs.filter _) hb
    refine ⟨hbmem, hble3, by omega, ?_⟩
    intro y hy hy1 hy2
    have hyf : y ∈ bars.filter
        (fun b => decide (d - 1 - 10 ≤ b.1) && decide (b.1 ≤ d - 1)) := by
      rw [List.mem_filter]
      exact ⟨hy, by simp [Bool.and_eq_true, decide_eq_true_eq]; omega⟩
    exact hmax y hyf
  · intro c hc
    unfold entryBar
    apply getLast?_sorted_eq_max (hs.filter _)
    · rw [List.mem_filter]
      exact ⟨hc, by simp [Bool.and_eq_true, decide_eq_true_eq]; omega⟩
    · intro x hx
      rw [List.mem_filter] at hx
      obtain ⟨hxmem, hxp⟩ := hx
      have hxp2 : d - 1 - 10 ≤ x.1 ∧ x.1 ≤ d - 1 := by
        simpa [Bool.and_eq_true, decide_eq_true_eq] using hxp
      have hx5 := htrade x hxmem
      unfold weekday at hx5 hd
      simp only
      omega

/-- C1 amended-claim witness at day 7 (a Monday) with a single trading
bar on day 4 (the prior Friday). -/
theorem C1_amended_wit :
    getValidEntryRef 7 480 = some 6 ∧
    entryBar [((4 : ℤ), (10 : ℚ))] 6 = some (4, 10) := by
  have H := C1_amended 7 [((4 : ℤ), (10 : ℚ))] (by decide) (by simp)
    (by decide)
  refine ⟨by simpa using H.1, ?_⟩
  have := H.2.2.2 10 (by simp)
  simpa using this

/-- C2: on a weekday, a timestamp at or after 09:30 and before 16:00 ET
is rejected — `get_valid_entry_price` returns no entry price, no
reference date and no entry bar — while a timestamp at or after 16:00
is accepted with the same calendar day as `reference_date`. -/
theorem C2_timing (d : ℤ) (t : ℕ) (bars : List (ℤ × ℚ))
    (hwd : weekday d < 5) :
    (marketOpenMin ≤ t → t < marketCloseMin →
      getValidEntryRef d t = none ∧ getValidEntryPrice bars d t = none) ∧
    (marketCloseMin ≤ t → getValidEntryRef d t = some d) := by
  constructor
  · intro h1 h2
    have hmh : duringMarketHours d t = true := by
      simp [duringMarketHours, isMarketDay]
      tauto
    constructor
    · simp [getValidEntryRef, hmh]
    · simp [getValidEntryPrice, getValidEntryRef, hmh]
  · intro h
    have hmh : duringMarketHours d t = false := by
      simp [duringMarketHours, isMarketDay, marketCloseMin] at h ⊢
      omega
    have hnw : ¬ (5 ≤ weekday d) := by omega
    simp [getValidEntryRef, hmh, referenceDate, hnw, h]

/-- C2 witness: 10:15 ET on a Tuesday (day 1) is rejected; 17:00 ET on
a Friday (day 4) yields that Friday as reference date. -/
theorem C2_timing_wit :
    getValidEntryRef 1 615 = none ∧ getValidEntryPrice [] 1 615 = none ∧
    getValidEntryRef 4 1020 = some 4 :=
  ⟨((C2_timing 1 615 [] (by decide)).1 (by decide) (by decide)).1,
   ((C2_timing 1 615 [] (by decide)).1 (by decide) (by decide)).2,
   (C2_timing 4 1020 [] (by decide)).2 (by decide)⟩

end StockScanner

namespace StockScanner

/-! ### Claim C3: forward-outcome simulation (`calculate_outcome`) -/

/-- Trade outcome of the forward simulation. -/
inductive Outcome where
  | success
  | failure
  | pending
deriving DecidableEq

/-- The scan loop of `calculate_outcome`: walk the date-ordered price
series; the first bar at or above the target exits `Success`, otherwise
the first bar at or below the stop exits `Failure`; an exhausted series
is `Pending`. -/
def calcOutcomeAux (targetPrice stopPrice : ℚ) :
    List (ℤ × ℚ) → Outcome × Option ℤ
  | [] => (Outcome.pending, none)
  | b :: rest =>
    if targetPrice ≤ b.2 then (Outcome.success, some b.1)
    else if b.2 ≤ stopPrice then (Outcome.failure, some b.1)
    else calcOutcomeAux targetPrice stopPrice rest

/-- `calculate_outcome(prices, entry_price, target_profit, stop_loss)`
with `target_price = entry_price * (1 + target_profit)` and
`stop_price = entry_price * (1 - stop_loss)`. -/
def calculate_outcome (prices : List (ℤ × ℚ))
    (entryPrice targetProfit stopLoss : ℚ) : Outcome × Option ℤ :=
  calcOutcomeAux (entryPrice * (1 + targetProfit))
    (entryPrice * (1 - stopLoss)) prices

theorem calcOutcomeAux_eq_find (targetPrice stopPrice : ℚ)
    (l : List (ℤ × ℚ)) :
    calcOutcomeAux targetPrice stopPrice l =
      match l.find? (fun b =>
          decide (targetPrice ≤ b.2) || decide (b.2 ≤ stopPrice)) with
      | none => (Outcome.pending, none)
      | some b =>
        (if targetPrice ≤ b.2 then Outcome.success else Outcome.failure,
          some b.1) := by
  induction l with
  | nil => rfl
  | cons b rest ih =>
    by_cases h1 : targetPrice ≤ b.2
    · simp [calcOutcomeAux, List.find?_cons, h1]
    · by_cases h2 : b.2 ≤ stopPrice
      · simp [calcOutcomeAux, List.find?_cons, h1, h2]
      · simp [calcOutcomeAux, List.find?_cons, h1, h2, ih]

theorem find_either_first (targetPrice stopPrice : ℚ)
    (l : List (ℤ × ℚ)) (b : ℤ × ℚ)
    (h : l.find? (fun x =>
        decide (targetPrice ≤ x.2) || decide (x.2 ≤ stopPrice)) = some b) :
    (targetPrice ≤ b.2 →
      l.find? (fun x => decide (targetPrice ≤ x.2)) = some b) ∧
    (¬ targetPrice ≤ b.2 →
      l.find? (fun x => decide (x.2 ≤ stopPrice)) = some b) := by
  induction l with
  | nil => simp at h
  | cons x rest ih =>
    by_cases h1 : targetPrice ≤ x.2
    · rw [List.find?_cons] at h
      simp [h1] at h
      constructor
      · intro _
        simp [List.find?_cons, ← h, h1]
      · intro hn
        exact absurd (h ▸ h1) hn
    · by_cases h2 : x.2 ≤ stopPrice
      · rw [List.find?_cons] at h
        simp [h1, h2] at h
        constructor
        · intro ht
          exact absurd (h ▸ ht) h1
        · intro _
          simp [List.find?_cons, ← h, h2]
      · rw [List.find?_cons] at h
        simp [h1, h2] at h
        have := ih h
        constructor
        · intro ht
          simp [List.find?_cons, h1]
          exact this.1 ht
        · intro hn
          simp [List.find?_cons, h2]
          exact this.2 hn

/-- C3 counterexample: with `entry_price = 100`, `target_profit = 0.05`
and `stop_loss = 0.03`, forward closes `[101, 98, 97]` give `Failure`
with exit on day 3 — the first close at or below the stop price 97 is
the close 97 on day 3 — not day 2 as the claim states (98 > 97). -/
theorem C3_cex :
    calculate_outcome [(1, 101), (2, 98), (3, 97)] 100 (5/100) (3/100) =
      (Outcome.failure, some 3) ∧
    (Outcome.failure, some (3 : ℤ)) ≠ (Outcome.failure, some (2 : ℤ)) := by
  constructor
  · norm_num [calculate_outcome, calcOutcomeAux]
  · decide

/-- C3 (amended): `calculate_outcome` scans the date-ordered bars and
exits at the first bar meeting either condition — `Success` on the
first bar whose close is at or above `entry_price * (1 + target_profit)`,
`Failure` on the first bar whose close is at or below
`entry_price * (1 - stop_loss)`, whichever comes first; if no bar meets
either condition the outcome is `Pending` with no exit date.  With
`entry_price = 100`, `target_profit = 0.05`, `stop_loss = 0.03`:
closes `[101, 103, 106, 98]` give `Success` on day 3; closes
`[101, 98, 97]` give `Failure` on day 3 (not day 2); closes
`[100.5, 101, 102]` give `Pending`. -/
theorem C3_amended (prices : List (ℤ × ℚ))
    (entryPrice targetProfit stopLoss : ℚ) :
    (calculate_outcome prices entryPrice targetProfit stopLoss =
      match prices.find? (fun b =>
          decide (entryPrice * (1 + targetProfit) ≤ b.2) ||
          decide (b.2 ≤ entryPrice * (1 - stopLoss))) with
      | none => (Outcome.pending, none)
      | some b =>
        (if entryPrice * (1 + targetProfit) ≤ b.2 then Outcome.success
          else Outcome.failure, some b.1)) ∧
    (∀ b, prices.find? (fun x =>
          decide (entryPrice * (1 + targetProfit) ≤ x.2) ||
          decide (x.2 ≤ entryPrice * (1 - stopLoss))) = some b →
      (entryPrice * (1 + targetProfit) ≤ b.2 →
        prices.find? (fun x =>
          decide (entryPrice * (1 + targetProfit) ≤ x.2)) = some b) ∧
      (¬ entryPrice * (1 + targetProfit) ≤ b.2 →
        prices.find? (fun x =>
          decide (x.2 ≤ entryPrice * (1 - stopLoss))) = some b)) ∧
    calculate_outcome [(1, 101), (2, 103), (3, 106), (4, 98)] 100
      (5/100) (3/100) = (Outcome.success, some 3) ∧
    calculate_outcome [(1, 101), (2, 98), (3, 97)] 100 (5/100) (3/100) =
      (Outcome.failure, some 3) ∧
    calculate_outcome [(1, 201/2), (2, 101), (3, 102)] 100 (5/100)
      (3/100) = (Outcome.pending, none) := by
  refine ⟨calcOutcomeAux_eq_find _ _ prices, ?_,
    by norm_num [calculate_outcome, calcOutcomeAux],
    by norm_num [calculate_outcome, calcOutcomeAux],
    by norm_num [calculate_outcome, calcOutcomeAux]⟩
  intro b hb
  exact find_either_first _ _ prices b hb

/-- C3 witness: the amended characterization evaluated on the Failure
example series, where the first bar meeting either exit condition is
day 3 with close 97. -/
theorem C3_amended_wit :
    calculate_outcome [(1, 101), (2, 98), (3, 97)] 100 (5/100) (3/100) =
      (Outcome.failure, some 3) ∧
    [((1 : ℤ), (101 : ℚ)), (2, 98), (3, 97)].find? (fun x =>
        decide (x.2 ≤ (97 : ℚ))) = some (3, 97) := by
  have H := C3_amended [(1, 101), (2, 98), (3, 97)] 100 (5/100) (3/100)
  refine ⟨H.2.2.2.1, ?_⟩
  have h2 := (H.2.1 (3, 97) (by norm_num [List.find?_cons])).2 (by norm_num)
  have he : (100 : ℚ) * (1 - 3/100) = 97 := by norm_num
  rw [he] at h2
  exact h2

/-! ### Claims C4 and C5: `_find_pattern_in_window` flag computation

The regression fit of step 2 (weighted least squares through the high
extrema, unweighted through the low extrema) produces two lines
`slope * x + intercept`; the claims quantify over windows *with fitted
trendlines*, so the fit output is taken as a parameter here and the
flag computations of steps 3 and 4 are embedded verbatim. -/

/-- Count of leading `true` values — the `for val in reversed(is_above)`
loop body of `_find_pattern_in_window`, which increments while `val`
holds and breaks at the first `False`. -/
def countLeadingTrue : List Bool → ℕ
  | [] => 0
  | b :: rest => if b then countLeadingTrue rest + 1 else 0

/-- Trendline value `slope * x + intercept` at bar `i` of the window
(`x_axis = np.arange(len(prices))`). -/
def lineAt (slope intercept : ℚ) (i : ℕ) : ℚ := slope * (i : ℚ) + intercept

/-- `is_above = (prices > upper_trendline.values)` — elementwise strict
comparison of the closes against the upper trendline. -/
def isAboveList (prices : List ℚ) (slope intercept : ℚ) : List Bool :=
  List.zipWith (fun p i => decide (lineAt slope intercept i < p)) prices
    (List.range prices.length)

/-- `consecutive_above`: the number of consecutive most-recent bars
whose close strictly exceeds the upper trendline. -/
def consecutiveAbove (prices : List ℚ) (slope intercept : ℚ) : ℕ :=
  countLeadingTrue (isAboveList prices slope intercept).reverse

/-- The two fitted trendlines of `_find_pattern_in_window` step 2. -/
structure FittedLines where
  slopeHigh : ℚ
  interceptHigh : ℚ
  slopeLow : ℚ
  interceptLow : ℚ

/-- The result dict of `_find_pattern_in_window`. -/
structure PatternResult where
  isConverging : Bool
  isBreakingOut : Bool
  isBreakingDown : Bool
  breakoutAge : ℕ
  breakoutStrength : ℚ
  r2High : ℚ
  r2Low : ℚ
  compression : ℚ

/-- Steps 3 and 4 of `_find_pattern_in_window`: compression and
convergence from the trendline gap at the first extremum versus the
window end, breakout age and freshness from the consecutive-above
count, breakdown from the most recent `confirm_days` closes. -/
def findPatternCore (prices : List ℚ) (fit : FittedLines)
    (firstExtremaIdx : ℕ) (convergenceThreshold : ℚ)
    (breakoutMinDays breakoutMaxDays breakdownConfirmDays : ℕ)
    (r2High r2Low : ℚ) : PatternResult :=
  let n := prices.length
  let upper := lineAt fit.slopeHigh fit.interceptHigh
  let lower := lineAt fit.slopeLow fit.interceptLow
  let distStart := upper firstExtremaIdx - lower firstExtremaIdx
  let distEnd := upper (n - 1) - lower (n - 1)
  let compression := if 0 < distStart then distEnd / distStart else 1
  let isConverging := decide (fit.slopeHigh < fit.slopeLow) &&
    decide (compression < convergenceThreshold)
  let age := consecutiveAbove prices fit.slopeHigh fit.interceptHigh
  let isBreakingOut := decide (breakoutMinDays ≤ age) &&
    decide (age ≤ breakoutMaxDays)
  let confirm := min n (max 1 breakdownConfirmDays)
  let isBreakingDown := (List.range confirm).all
    (fun k => decide (prices.getD (n - (k + 1)) 0 < lower (n - (k + 1))))
  { isConverging := isConverging
    isBreakingOut := isBreakingOut
    isBreakingDown := isBreakingDown
    breakoutAge := age
    breakoutStrength := prices.getD (n - 1) 0 / upper (n - 1) - 1
    r2High := r2High
    r2Low := r2Low
    compression := compression }

theorem countLeadingTrue_le (l : List Bool) : countLeadingTrue l ≤ l.length := by
  induction l with
  | nil => simp [countLeadingTrue]
  | cons b rest ih =>
    cases b with
    | false => simp [countLeadingTrue]
    | true =>
      simp [countLeadingTrue]
      omega

theorem countLeadingTrue_lt (l : List Bool) (k : ℕ)
    (h : k < countLeadingTrue l) : l.getD k false = true := by
  induction l generalizing k with
  | nil => simp [countLeadingTrue] at h
  | cons b rest ih =>
    by_cases hb : b = true
    · cases k with
      | zero => simp [hb]
      | succ k2 =>
        simp [countLeadingTrue, hb] at h
        simpa using ih k2 (by omega)
    · simp at hb
      simp [countLeadingTrue, hb] at h

theorem countLeadingTrue_next (l : List Bool)
    (h : countLeadingTrue l < l.length) :
    l.getD (countLeadingTrue l) false = false := by
  induction l with
  | nil => simp at h
  | cons b rest ih =>
    cases b with
    | false => simp [countLeadingTrue]
    | true =>
      simp [countLeadingTrue] at h ⊢
      simpa using ih (by omega)

theorem getD_reverse (l : List Bool) (k : ℕ) (h : k < l.length) :
    l.reverse.getD k false = l.getD (l.length - 1 - k) false := by
  rw [List.getD_eq_getElem?_getD, List.getD_eq_getElem?_getD,
    List.getElem?_reverse h]

/-- C4: `_find_pattern_in_window` sets `breakout_age` to the number of
consecutive most-recent bars whose close strictly exceeds the upper
trendline at that bar — all bars in the trailing run are above the
line and the bar immediately preceding the run (when one exists) is
not — and sets `is_breaking_out` exactly when that count lies within
`[breakout_min_days, breakout_max_days]`. -/
theorem C4_breakout (prices : List ℚ) (fit : FittedLines)
    (firstExtremaIdx : ℕ) (thr : ℚ)
    (minDays maxDays confirmDays : ℕ) (r2h r2l : ℚ) :
    (findPatternCore prices fit firstExtremaIdx thr minDays maxDays
        confirmDays r2h r2l).breakoutAge ≤ prices.length ∧
    (∀ k, k < (findPatternCore prices fit firstExtremaIdx thr minDays
        maxDays confirmDays r2h r2l).breakoutAge →
      (isAboveList prices fit.slopeHigh fit.interceptHigh).getD
        (prices.length - 1 - k) false = true) ∧
    ((findPatternCore prices fit firstExtremaIdx thr minDays maxDays
        confirmDays r2h r2l).breakoutAge < prices.length →
      (isAboveList prices fit.slopeHigh fit.interceptHigh).getD
        (prices.length - 1 - (findPatternCore prices fit firstExtremaIdx
          thr minDays maxDays confirmDays r2h r2l).breakoutAge) false =
        false) ∧
    ((findPatternCore prices fit firstExtremaIdx thr minDays maxDays
        confirmDays r2h r2l).isBreakingOut = true ↔
      minDays ≤ (findPatternCore prices fit firstExtremaIdx thr minDays
        maxDays confirmDays r2h r2l).breakoutAge ∧
      (findPatternCore prices fit firstExtremaIdx thr minDays maxDays
        confirmDays r2h r2l).breakoutAge ≤ maxDays) := by
  have hage : (findPatternCore prices fit firstExtremaIdx thr minDays
      maxDays confirmDays r2h r2l).breakoutAge =
      consecutiveAbove prices fit.slopeHigh fit.interceptHigh := rfl
  have hlen : (isAboveList prices fit.slopeHigh fit.interceptHigh).length =
      prices.length := by
    simp [isAboveList]
  rw [hage]
  set ab := isAboveList prices fit.slopeHigh fit.interceptHigh with hab
  have hrevlen : ab.reverse.length = prices.length := by
    simp [hlen]
  have hle : consecutiveAbove prices fit.slopeHigh fit.interceptHigh ≤
      prices.length := by
    have := countLeadingTrue_le ab.reverse
    rw [hrevlen] at this
    exact this
  have hca : consecutiveAbove prices fit.slopeHigh fit.interceptHigh =
      countLeadingTrue ab.reverse := rfl
  refine ⟨hle, ?_, ?_, ?_⟩
  · intro k hk
    have hk2 : k < prices.length := lt_of_lt_of_le hk hle
    have hthis := countLeadingTrue_lt ab.reverse k (hca ▸ hk)
    rwa [getD_reverse ab k (by omega), hlen] at hthis
  · intro hlt
    have hthis := countLeadingTrue_next ab.reverse
      (by rw [hrevlen, ← hca]; exact hlt)
    rw [getD_reverse ab _ (by rw [hlen, ← hca]; exact hlt), hlen,
      ← hca] at hthis
    exact hthis
  · simp [findPatternCore, Bool.and_eq_true, decide_eq_true_eq]

/-- C4 witness: with the default freshness band `[1, 2]`, a window
whose close exceeds the upper line on exactly the final bar has
`breakout_age = 1` and is breaking out; three consecutive trailing bars
above the line give `breakout_age = 3` and no fresh breakout. -/
theorem C4_breakout_wit :
    (findPatternCore [10, 10, 10, 20] ⟨0, 15, 0, 0⟩ 0 (1/10) 1 2 2 0
      0).breakoutAge = 1 ∧
    (findPatternCore [10, 10, 10, 20] ⟨0, 15, 0, 0⟩ 0 (1/10) 1 2 2 0
      0).isBreakingOut = true ∧
    (findPatternCore [10, 20, 20, 20] ⟨0, 15, 0, 0⟩ 0 (1/10) 1 2 2 0
      0).breakoutAge = 3 ∧
    (findPatternCore [10, 20, 20, 20] ⟨0, 15, 0, 0⟩ 0 (1/10) 1 2 2 0
      0).isBreakingOut = false := by
  have h1 : (findPatternCore [10, 10, 10, 20] ⟨0, 15, 0, 0⟩ 0 (1/10) 1 2
      2 0 0).breakoutAge = 1 := by
    norm_num [findPatternCore, consecutiveAbove, isAboveList, lineAt,
      countLeadingTrue, List.range_succ]
  have h3 : (findPatternCore [10, 20, 20, 20] ⟨0, 15, 0, 0⟩ 0 (1/10) 1 2
      2 0 0).breakoutAge = 3 := by
    norm_num [findPatternCore, consecutiveAbove, isAboveList, lineAt,
      countLeadingTrue, List.range_succ]
  have h2 : (findPatternCore [10, 10, 10, 20] ⟨0, 15, 0, 0⟩ 0 (1/10) 1 2
      2 0 0).isBreakingOut = true :=
    (C4_breakout [10, 10, 10, 20] ⟨0, 15, 0, 0⟩ 0 (1/10) 1 2 2 0
      0).2.2.2.mpr ⟨by rw [h1], by rw [h1]; omega⟩
  have h4 : (findPatternCore [10, 20, 20, 20] ⟨0, 15, 0, 0⟩ 0 (1/10) 1 2
      2 0 0).isBreakingOut = false := by
    refine Bool.eq_false_iff.mpr (fun hc => ?_)
    have := (C4_breakout [10, 20, 20, 20] ⟨0, 15, 0, 0⟩ 0 (1/10) 1 2 2 0
      0).2.2.2.mp hc
    rw [h3] at this
    omega
  exact ⟨h1, h2, h3, h4⟩

/-- C5: `_find_pattern_in_window` sets `is_converging` exactly when the
upper slope is strictly below the lower slope and the compression —
the trendline gap at the window's last bar divided by the gap at the
first extremum — is strictly below the convergence threshold; a
non-positive initial gap makes the compression exactly 1, which under
the default threshold 0.1 is never convergent but remains
computable. -/
theorem C5_convergence (prices : List ℚ) (fit : FittedLines)
    (firstExtremaIdx : ℕ) (thr : ℚ)
    (minDays maxDays confirmDays : ℕ) (r2h r2l : ℚ) :
    (lineAt fit.slopeHigh fit.interceptHigh firstExtremaIdx -
        lineAt fit.slopeLow fit.interceptLow firstExtremaIdx ≤ 0 →
      (findPatternCore prices fit firstExtremaIdx thr minDays maxDays
        confirmDays r2h r2l).compression = 1) ∧
    (0 < lineAt fit.slopeHigh fit.interceptHigh firstExtremaIdx -
        lineAt fit.slopeLow fit.interceptLow firstExtremaIdx →
      (findPatternCore prices fit firstExtremaIdx thr minDays maxDays
        confirmDays r2h r2l).compression =
        (lineAt fit.slopeHigh fit.interceptHigh (prices.length - 1) -
          lineAt fit.slopeLow fit.interceptLow (prices.length - 1)) /
        (lineAt fit.slopeHigh fit.interceptHigh firstExtremaIdx -
          lineAt fit.slopeLow fit.interceptLow firstExtremaIdx)) ∧
    ((findPatternCore prices fit firstExtremaIdx thr minDays maxDays
        confirmDays r2h r2l).isConverging = true ↔
      (fit.slopeHigh < fit.slopeLow ∧
        (findPatternCore prices fit firstExtremaIdx thr minDays maxDays
          confirmDays r2h r2l).compression < thr)) ∧
    (lineAt fit.slopeHigh fit.interceptHigh firstExtremaIdx -
        lineAt fit.slopeLow fit.interceptLow firstExtremaIdx ≤ 0 →
      thr = 1/10 →
      (findPatternCore prices fit firstExtremaIdx thr minDays maxDays
        confirmDays r2h r2l).isConverging = false) := by
  refine ⟨?_, ?_, ?_, ?_⟩
  · intro h
    have hn : ¬ (0 < lineAt fit.slopeHigh fit.interceptHigh
        firstExtremaIdx - lineAt fit.slopeLow fit.interceptLow
        firstExtremaIdx) := not_lt.mpr h
    simp [findPatternCore, hn]
  · intro h
    simp [findPatternCore, h]
  · simp [findPatternCore, Bool.and_eq_true, decide_eq_true_eq]
  · intro h hthr
    have hn : ¬ (0 < lineAt fit.slopeHigh fit.interceptHigh
        firstExtremaIdx - lineAt fit.slopeLow fit.interceptLow
        firstExtremaIdx) := not_lt.mpr h
    have h110 : ¬ ((1 : ℚ) < 1/10) := by norm_num
    simp [findPatternCore, hn, hthr, h110]
    intro hsl
    norm_num

/-- C5 witness: a degenerate geometry whose trendline gap at the first
extremum is negative; the compression defaults to exactly 1 and the
window is not convergent under the default 0.1 threshold. -/
theorem C5_convergence_wit :
    (findPatternCore [1, 2] ⟨0, 0, 0, 5⟩ 0 (1/10) 1 2 2 0
      0).compression = 1 ∧
    (findPatternCore [1, 2] ⟨0, 0, 0, 5⟩ 0 (1/10) 1 2 2 0
      0).isConverging = false := by
  have H := C5_convergence [1, 2] ⟨0, 0, 0, 5⟩ 0 (1/10) 1 2 2 0 0
  have hle : lineAt (FittedLines.mk 0 0 0 5).slopeHigh
      (FittedLines.mk 0 0 0 5).interceptHigh 0 -
      lineAt (FittedLines.mk 0 0 0 5).slopeLow
      (FittedLines.mk 0 0 0 5).interceptLow 0 ≤ 0 := by
    norm_num [lineAt]
  exact ⟨H.1 hle, H.2.2.2 hle rfl⟩

/-! ### Claims C6 and C7: `ScoringEngine.calculate_score`

Default configuration of `ScoringEngine.__init__`.  The annualized
volatility input of `_calculate_volatility_score`
(`daily_returns.std() * sqrt(252)`) is irrational-valued and is taken
as a parameter `annualVol`; the score's clamp applies to every value of
that parameter, so quantifying over all rationals covers every series.
The rolling volume mean is modelled on series with at least
`volume_window` bars (shorter series hit pandas `NaN` semantics, which
a rational embedding cannot express). -/

/-- Pattern dict fields consumed by `calculate_score`. -/
structure Pattern where
  isConverging : Bool
  isBreakingOut : Bool
  isBreakingDown : Bool
  r2High : ℚ
  r2Low : ℚ
  compression : ℚ
  breakoutStrength : ℚ
  breakoutAge : ℕ

/-- `max(0, min(1, x))` — the normalization used by every component. -/
def clamp01 (x : ℚ) : ℚ := max 0 (min 1 x)

/-- Default weight `quality: 0.3`. -/
def weightQuality : ℚ := 3/10

/-- Default weight `compression: 0.3`. -/
def weightCompression : ℚ := 3/10

/-- Default weight `volume: 0.2`. -/
def weightVolume : ℚ := 2/10

/-- Default weight `breakout_strength: 0.1`. -/
def weightBreakoutStrength : ℚ := 1/10

/-- Default weight `freshness: 0.1`. -/
def weightFreshness : ℚ := 1/10

/-- Default `r2_quality_min = 0.5`. -/
def r2QualityMin : ℚ := 1/2

/-- Default `breakout_strength_max = 0.03`. -/
def breakoutStrengthMax : ℚ := 3/100

/-- Default `volume_window = 20`. -/
def volumeWindow : ℕ := 20

/-- Default `volume_ratio_full_score = 2.0`. -/
def volumeRatioFullScore : ℚ := 2

/-- Default `breakout_age_scores = {1: 1.0, 2: 0.7}` with default
score 0 for other ages. -/
def breakoutAgeScore (age : ℕ) : ℚ :=
  if age = 1 then 1 else if age = 2 then 7/10 else 0

/-- Default `final_score_scale = 100.0`. -/
def finalScoreScale : ℚ := 100

/-- Default `volatility_bonus_scale = 10.0`. -/
def volatilityBonusScale : ℚ := 10

/-- Default `max_annual_volatility = 0.50`. -/
def maxAnnualVolatility : ℚ := 1/2

/-- `_calculate_quality`: zero below the R² floor, otherwise the
clamped average of the two R² values. -/
def calcQuality (p : Pattern) : ℚ :=
  if p.r2High < r2QualityMin then 0 else clamp01 ((p.r2High + p.r2Low) / 2)

/-- Last value of `rolling(window=w).mean()` on a series with at least
`w` entries: the mean of the final `w` values. -/
def rollingMeanLast (l : List ℚ) (w : ℕ) : ℚ :=
  ((l.drop (l.length - w)).sum) / (w : ℚ)

/-- `_calculate_volume_score`: relative volume of the last bar against
the 20-bar rolling mean, scaled by `volume_ratio_full_score` and
clamped. -/
def calcVolumeScore (volumes : List ℚ) : ℚ :=
  let recent := volumes.getD (volumes.length - 1) 0
  let avg := rollingMeanLast volumes volumeWindow
  if avg = 0 then 0
  else if volumeRatioFullScore ≤ 0 then 0
  else clamp01 ((recent / avg) / volumeRatioFullScore)

/-- `_calculate_volatility_score` with the annualized volatility as
input: zero for a non-positive normalizer, otherwise the clamped
ratio. -/
def calcVolatilityScore (annualVol : ℚ) : ℚ :=
  if maxAnnualVolatility ≤ 0 then 0
  else clamp01 (annualVol / maxAnnualVolatility)

/-- Python `round(x, 2)` modelled as rounding `100 x` to the nearest
integer (ties differ from float banker's rounding only at exact
half-cent values). -/
def round2 (x : ℚ) : ℚ := ((round (x * 100) : ℤ) : ℚ) / 100

/-- `ScoringEngine.calculate_score` under the default configuration:
zero on a breakdown or a missing breakout, otherwise the weighted sum
of the five clamped components scaled to 100, plus the scaled
volatility bonus, capped at 100 and rounded to two decimals. -/
def calculate_score (volumes : List ℚ) (annualVol : ℚ) (p : Pattern) : ℚ :=
  if p.isBreakingDown then 0
  else if !p.isBreakingOut then 0
  else
    let qualityScore := calcQuality p
    let compressionScore := clamp01 (1 - p.compression)
    let volumeScore := calcVolumeScore volumes
    let strengthScore :=
      if p.isBreakingOut && decide ((0 : ℚ) < breakoutStrengthMax) then
        clamp01 (p.breakoutStrength / breakoutStrengthMax)
      else 0
    let freshnessScore := breakoutAgeScore p.breakoutAge
    let volScore := calcVolatilityScore annualVol
    let weighted := qualityScore * weightQuality +
      compressionScore * weightCompression +
      volumeScore * weightVolume +
      strengthScore * weightBreakoutStrength +
      freshnessScore * weightFreshness
    round2 (min 100 (weighted * finalScoreScale +
      volScore * volatilityBonusScale))

theorem clamp01_nonneg (x : ℚ) : 0 ≤ clamp01 x := le_max_left 0 _

theorem clamp01_le_one (x : ℚ) : clamp01 x ≤ 1 :=
  max_le (by norm_num) (min_le_left 1 x)

theorem calcQuality_mem (p : Pattern) :
    0 ≤ calcQuality p ∧ calcQuality p ≤ 1 := by
  unfold calcQuality
  split
  · norm_num
  · exact ⟨clamp01_nonneg _, clamp01_le_one _⟩

theorem calcVolumeScore_mem (volumes : List ℚ) :
    0 ≤ calcVolumeScore volumes ∧ calcVolumeScore volumes ≤ 1 := by
  unfold calcVolumeScore
  dsimp only
  split_ifs
  · norm_num
  · norm_num
  · exact ⟨clamp01_nonneg _, clamp01_le_one _⟩

theorem calcVolatilityScore_mem (annualVol : ℚ) :
    0 ≤ calcVolatilityScore annualVol ∧ calcVolatilityScore annualVol ≤ 1 := by
  unfold calcVolatilityScore
  split
  · norm_num
  · exact ⟨clamp01_nonneg _, clamp01_le_one _⟩

theorem breakoutAgeScore_mem (age : ℕ) :
    0 ≤ breakoutAgeScore age ∧ breakoutAgeScore age ≤ 1 := by
  unfold breakoutAgeScore
  split
  · norm_num
  · split <;> norm_num

theorem round2_bounds (x : ℚ) (h0 : 0 ≤ x) (h1 : x ≤ 100) :
    0 ≤ round2 x ∧ round2 x ≤ 100 := by
  have hr := round_eq (x * 100)
  have hlow : 0 ≤ round (x * 100) := by
    rw [hr]
    refine Int.floor_nonneg.mpr ?_
    nlinarith
  have hhigh : round (x * 100) ≤ 10000 := by
    rw [hr]
    have : (⌊x * 100 + 1 / 2⌋ : ℤ) < 10001 := by
      refine Int.floor_lt.mpr ?_
      push_cast
      nlinarith
    omega
  unfold round2
  constructor
  · positivity
  · rw [div_le_iff₀ (by norm_num : (0 : ℚ) < 100)]
    calc ((round (x * 100) : ℤ) : ℚ) ≤ ((10000 : ℤ) : ℚ) := by
          exact_mod_cast hhigh
      _ = 100 * 100 := by norm_num

/-- C6: `calculate_score` returns exactly 0 whenever the pattern is
breaking down, and exactly 0 whenever it is not breaking out — the two
early returns fire before any component is computed. -/
theorem C6_zero_scores (volumes : List ℚ) (annualVol : ℚ) (p : Pattern) :
    (p.isBreakingDown = true → calculate_score volumes annualVol p = 0) ∧
    (p.isBreakingOut = false → calculate_score volumes annualVol p = 0) := by
  constructor
  · intro h
    simp [calculate_score, h]
  · intro h
    by_cases hd : p.isBreakingDown <;> simp [calculate_score, h, hd]

/-- C6 witness: a breaking-down pattern and a non-breaking-out pattern
both score 0. -/
theorem C6_zero_scores_wit :
    calculate_score [] 0 ⟨false, true, true, 0, 0, 0, 0, 0⟩ = 0 ∧
    calculate_score [] 0 ⟨false, false, false, 0, 0, 0, 0, 0⟩ = 0 :=
  ⟨(C6_zero_scores [] 0 ⟨false, true, true, 0, 0, 0, 0, 0⟩).1 rfl,
   (C6_zero_scores [] 0 ⟨false, false, false, 0, 0, 0, 0, 0⟩).2 rfl⟩

/-- C7: under the default configuration the score always lies within
`[0, 100]`: the two early returns give exactly 0, and otherwise the
score is `round2` of `min 100` applied to `100 ×` the weighted sum of
the five clamped components plus `volatility_bonus_scale ×` the clamped
volatility bonus — a quantity that is non-negative because every
component and weight is, so the upper cap alone realizes the `[0, 100]`
clamp. -/
theorem C7_score_bounds (volumes : List ℚ) (annualVol : ℚ) (p : Pattern)
    (hv : volumeWindow ≤ volumes.length) :
    (0 ≤ calculate_score volumes annualVol p ∧
      calculate_score volumes annualVol p ≤ 100) ∧
    (p.isBreakingDown = false → p.isBreakingOut = true →
      calculate_score volumes annualVol p =
        round2 (min 100 ((calcQuality p * weightQuality +
          clamp01 (1 - p.compression) * weightCompression +
          calcVolumeScore volumes * weightVolume +
          clamp01 (p.breakoutStrength / breakoutStrengthMax) *
            weightBreakoutStrength +
          breakoutAgeScore p.breakoutAge * weightFreshness) *
          finalScoreScale +
          calcVolatilityScore annualVol * volatilityBonusScale))) := by
  have hgen : ∀ s : ℚ, 0 ≤ s → s ≤ 1 →
      0 ≤ min 100 ((calcQuality p * weightQuality +
        clamp01 (1 - p.compression) * weightCompression +
        calcVolumeScore volumes * weightVolume +
        s * weightBreakoutStrength +
        breakoutAgeScore p.breakoutAge * weightFreshness) *
        finalScoreScale +
        calcVolatilityScore annualVol * volatilityBonusScale) ∧
      min 100 ((calcQuality p * weightQuality +
        clamp01 (1 - p.compression) * weightCompression +
        calcVolumeScore volumes * weightVolume +
        s * weightBreakoutStrength +
        breakoutAgeScore p.breakoutAge * weightFreshness) *
        finalScoreScale +
        calcVolatilityScore annualVol * volatilityBonusScale) ≤ 100 := by
    intro s hs0 hs1
    have hq := calcQuality_mem p
    have hcn := clamp01_nonneg (1 - p.compression)
    have hvm := calcVolumeScore_mem volumes
    have hfm := breakoutAgeScore_mem p.breakoutAge
    have hvol := calcVolatilityScore_mem annualVol
    refine ⟨le_min (by norm_num) ?_, min_le_left _ _⟩
    unfold weightQuality weightCompression weightVolume
      weightBreakoutStrength weightFreshness finalScoreScale
      volatilityBonusScale
    nlinarith [hq.1, hcn, hvm.1, hfm.1, hvol.1]
  constructor
  · unfold calculate_score
    dsimp only
    split_ifs with h1 h2 h3
    · norm_num
    · norm_num
    · exact round2_bounds _
        (hgen _ (clamp01_nonneg _) (clamp01_le_one _)).1
        (hgen _ (clamp01_nonneg _) (clamp01_le_one _)).2
    · exact round2_bounds _ (hgen 0 le_rfl (by norm_num)).1
        (hgen 0 le_rfl (by norm_num)).2
  · intro hbd hbo
    have hbs : (0 : ℚ) < breakoutStrengthMax := by
      unfold breakoutStrengthMax
      norm_num
    simp [calculate_score, hbd, hbo, hbs]

/-- C7 witness: a concrete breaking-out pattern over a 20-bar volume
series scores within `[0, 100]`. -/
theorem C7_score_bounds_wit :
    0 ≤ calculate_score (List.replicate 20 1) 1
      ⟨true, true, false, 1, 1, 0, 1, 1⟩ ∧
    calculate_score (List.replicate 20 1) 1
      ⟨true, true, false, 1, 1, 0, 1, 1⟩ ≤ 100 :=
  (C7_score_bounds (List.replicate 20 1) 1
    ⟨true, true, false, 1, 1, 0, 1, 1⟩ (by simp [volumeWindow])).1

/-! ### Claim C8: per-record metrics of `analyze_single_ticker`

Embeds the block after entry determination: `future_data` is every bar
strictly after the entry date, `window_data` restricts it to the
performance window, the outcome runs over the window closes, while the
"current" price and date are taken from the last `future_data` row. -/

/-- The metric fields of the result dict relevant to the claim. -/
structure BacktestMetrics where
  currentReturnPct : ℚ
  currentDate : ℤ
  outcome : Outcome
  exitDate : Option ℤ
  holdingDays : ℤ

/-- Lines 269–309 of `analyze_single_ticker`: forward bars, performance
window, current return, outcome and holding period. -/
def analyzeMetrics (df : List (ℤ × ℚ)) (entryDate : ℤ) (entryPrice : ℚ)
    (targetProfit stopLoss : ℚ) (windowDays : ℕ) :
    Option BacktestMetrics :=
  let future := df.filter (fun b => decide (entryDate < b.1))
  match future.getLast? with
  | none => none
  | some lastBar =>
    let windowData := future.filter
      (fun b => decide (b.1 ≤ entryDate + (windowDays : ℤ)))
    if windowData.isEmpty then none
    else
      let oc := calculate_outcome windowData entryPrice targetProfit
        stopLoss
      let currentReturn := (lastBar.2 - entryPrice) / entryPrice * 100
      let holding :=
        match oc.2 with
        | some e => e - entryDate
        | none => lastBar.1 - entryDate
      some ⟨currentReturn, lastBar.1, oc.1, oc.2, holding⟩

/-- The spec's reading of the most recent return — "computed over the
same bars as the forward simulation": the last close among the bars
after the entry date that lie within the performance window, relative
to the entry price.  Stated from the spec's words for comparison with
`analyzeMetrics`, which uses all future bars instead. -/
def currentReturnSpec (df : List (ℤ × ℚ)) (entryDate : ℤ)
    (entryPrice : ℚ) (windowDays : ℕ) : Option ℚ :=
  ((df.filter (fun b => decide (entryDate < b.1) &&
      decide (b.1 ≤ entryDate + (windowDays : ℤ)))).getLast?).map
    (fun b => (b.2 - entryPrice) / entryPrice * 100)

/-- C8 counterexample: entry on day 0 at price 100 with a 30-day
window; bars on day 1 (close 100) and day 40 (close 200).  The code's
most recent return uses the day-40 close — outside the performance
window — and reports 100%, while the claim's window-restricted value is
0%. -/
theorem C8_cex :
    (analyzeMetrics [(1, 100), (40, 200)] 0 100 (5/100) (3/100)
      30).map (fun m => m.currentReturnPct) = some 100 ∧
    currentReturnSpec [(1, 100), (40, 200)] 0 100 30 = some 0 ∧
    some (100 : ℚ) ≠ some (0 : ℚ) := by
  refine ⟨?_, ?_, by norm_num⟩
  · norm_num [analyzeMetrics, calculate_outcome, calcOutcomeAux,
      List.filter_cons, List.getLast?]
  · norm_num [currentReturnSpec, List.filter_cons, List.getLast?]

/-- C8 (amended): the most recent return is computed from the last
close among *all* fetched bars after the entry date — which may lie
beyond the fixed performance window — relative to the entry price; the
outcome and exit date come from the window-restricted bars, and
`holding_days` is the exit date minus the entry date when an exit
occurred, or the most recent (overall) bar's date minus the entry date
when the trade is pending. -/
theorem C8_amended (df : List (ℤ × ℚ)) (entryDate : ℤ) (entryPrice : ℚ)
    (targetProfit stopLoss : ℚ) (windowDays : ℕ) (m : BacktestMetrics)
    (h : analyzeMetrics df entryDate entryPrice targetProfit stopLoss
      windowDays = some m) :
    ∃ lastBar,
      (df.filter (fun b => decide (entryDate < b.1))).getLast? =
        some lastBar ∧
      m.currentReturnPct = (lastBar.2 - entryPrice) / entryPrice * 100 ∧
      m.currentDate = lastBar.1 ∧
      (m.outcome, m.exitDate) =
        calculate_outcome ((df.filter
          (fun b => decide (entryDate < b.1))).filter
          (fun b => decide (b.1 ≤ entryDate + (windowDays : ℤ))))
          entryPrice targetProfit stopLoss ∧
      (∀ e, m.exitDate = some e → m.holdingDays = e - entryDate) ∧
      (m.exitDate = none → m.holdingDays = lastBar.1 - entryDate) := by
  unfold analyzeMetrics at h
  dsimp only at h
  cases hfut : (df.filter (fun b => decide (entryDate < b.1))).getLast? with
  | none =>
    rw [hfut] at h
    simp at h
  | some lastBar =>
    rw [hfut] at h
    dsimp only at h
    split at h
    · exact absurd h (by simp)
    · have hm := (Option.some.inj h).symm
      subst hm
      refine ⟨lastBar, rfl, rfl, rfl, rfl, ?_, ?_⟩
      · intro e he
        dsimp only at he ⊢
        rw [he]
      · intro he
        dsimp only at he ⊢
        rw [he]

/-- C8 amended-claim witness at the counterexample input: the current
return comes from the day-40 bar, the last bar after entry. -/
theorem C8_amended_wit :
    analyzeMetrics [(1, 100), (40, 200)] 0 100 (5/100) (3/100) 30 =
      some ⟨100, 40, Outcome.pending, none, 40⟩ ∧
    ∃ lastBar, ([((1 : ℤ), (100 : ℚ)), (40, 200)].filter
        (fun b => decide ((0 : ℤ) < b.1))).getLast? = some lastBar ∧
      (100 : ℚ) = (lastBar.2 - 100) / 100 * 100 := by
  have heval : analyzeMetrics [(1, 100), (40, 200)] 0 100 (5/100)
      (3/100) 30 = some ⟨100, 40, Outcome.pending, none, 40⟩ := by
    norm_num [analyzeMetrics, calculate_outcome, calcOutcomeAux,
      List.filter_cons, List.getLast?]
  refine ⟨heval, ?_⟩
  obtain ⟨lb, hlb, hcr, _⟩ := C8_amended [(1, 100), (40, 200)] 0 100
    (5/100) (3/100) 30 ⟨100, 40, Outcome.pending, none, 40⟩ heval
  exact ⟨lb, hlb, hcr⟩

/-! ### Claim C9: `FilterEngine` coarse filters

`apply_coarse_filters` runs `_process_ticker` per ticker inside a
try/except that skips the ticker on any exception; a failing fetch or
metadata lookup is modelled as an `Option` carrying `none`. -/

/-- The defined (non-NaN) values of `close.rolling(window=p).mean()`:
the `p`-bar window means, one per position from `p - 1` on. -/
def smaValid (closes : List ℚ) (p : ℕ) : List ℚ :=
  (List.range (closes.length + 1 - p)).map
    (fun i => ((closes.drop i).take p).sum / (p : ℚ))

/-- `Series.tail(n)`: the last `n` entries. -/
def lastN (l : List ℚ) (n : ℕ) : List ℚ := l.drop (l.length - n)

/-- `y = recent_sma.values / recent_sma.values[0]` — normalization to
the first value. -/
def normalizeFirst (l : List ℚ) : List ℚ :=
  match l with
  | [] => []
  | y0 :: _ => l.map (fun y => y / y0)

/-- Slope of the degree-1 least-squares fit `np.polyfit(x, y, 1)` with
`x = 0, …, n - 1`, in closed form
`Σ (xᵢ - x̄)(yᵢ - ȳ) / Σ (xᵢ - x̄)²`. -/
def lsSlope (ys : List ℚ) : ℚ :=
  let n := ys.length
  let xbar : ℚ := ((n : ℚ) - 1) / 2
  let ybar := ys.sum / (n : ℚ)
  let sxy := (List.zipWith (fun i y => ((i : ℚ) - xbar) * (y - ybar))
    (List.range n) ys).sum
  let sxx := ((List.range n).map (fun i => ((i : ℚ) - xbar) ^ 2)).sum
  sxy / sxx

/-- `_is_trend_bullish`: require 20 defined rolling-mean values, the
last close strictly above the last rolling mean, and the normalized
regression slope of the most recent 20 rolling-mean values at or above
the threshold. -/
def isTrendBullish (closes : List ℚ) (p : ℕ) (thr : ℚ) : Bool :=
  let sma := smaValid closes p
  let recent := lastN sma 20
  if recent.length < 20 then false
  else
    let currentPrice := closes.getD (closes.length - 1) 0
    let currentSma := sma.getD (sma.length - 1) 0
    if currentPrice ≤ currentSma then false
    else decide (thr ≤ lsSlope (normalizeFirst recent))

/-- `_check_market_cap`: `none` models an unavailable market cap or a
lookup exception, which the code turns into `False`. -/
def checkMarketCap : Option ℚ → ℚ → Bool
  | none, _ => false
  | some mc, minCap => decide (minCap ≤ mc)

/-- Per-ticker fetched data: the close series and the (possibly
unavailable) market capitalization. -/
structure TickerData where
  closes : List ℚ
  marketCap : Option ℚ

/-- `_process_ticker`: history length, market cap, then trend. -/
def processTicker (td : TickerData) (p : ℕ) (minCap thr : ℚ) : Bool :=
  if td.closes.length < p + 20 then false
  else if !(checkMarketCap td.marketCap minCap) then false
  else isTrendBullish td.closes p thr

/-- `apply_coarse_filters`: keep the tickers whose fetch succeeds and
which pass `_process_ticker`; a per-ticker exception (fetch `none`)
excludes only that ticker. -/
def applyCoarseFilters (tickers : List ℕ) (fetch : ℕ → Option TickerData)
    (p : ℕ) (minCap thr : ℚ) : List ℕ :=
  tickers.filter (fun t =>
    match fetch t with
    | none => false
    | some td => processTicker td p minCap thr)

theorem smaValid_length (closes : List ℚ) (p : ℕ) :
    (smaValid closes p).length = closes.length + 1 - p := by
  simp [smaValid]

theorem processTicker_iff (td : TickerData) (p : ℕ) (minCap thr : ℚ) :
    processTicker td p minCap thr = true ↔
      (p + 20 ≤ td.closes.length ∧
       (∃ mc, td.marketCap = some mc ∧ minCap ≤ mc) ∧
       (smaValid td.closes p).getD ((smaValid td.closes p).length - 1) 0 <
         td.closes.getD (td.closes.length - 1) 0 ∧
       thr ≤ lsSlope (normalizeFirst (lastN (smaValid td.closes p) 20))) := by
  unfold processTicker isTrendBullish
  dsimp only
  by_cases hlen : td.closes.length < p + 20
  · have h2 : ¬ (p + 20 ≤ td.closes.length) := by omega
    simp [hlen, h2]
  · have h2 : p + 20 ≤ td.closes.length := by omega
    have hsl := smaValid_length td.closes p
    have hrl : (lastN (smaValid td.closes p) 20).length = 20 := by
      simp [lastN, hsl]
      omega
    have hnl : ¬ ((lastN (smaValid td.closes p) 20).length < 20) := by
      omega
    cases hmc : td.marketCap with
    | none => simp [hlen, hmc, checkMarketCap]
    | some mc =>
      by_cases hm : minCap ≤ mc
      · by_cases hpr : td.closes.getD (td.closes.length - 1) 0 ≤
            (smaValid td.closes p).getD ((smaValid td.closes p).length - 1) 0
        · have hnpr : ¬ ((smaValid td.closes p).getD
              ((smaValid td.closes p).length - 1) 0 <
              td.closes.getD (td.closes.length - 1) 0) := not_lt.mpr hpr
          simp [hlen, hmc, checkMarketCap, hm, hnl, hpr, hnpr]
          exact fun _ _ => h2
        · have hpr2 : (smaValid td.closes p).getD
              ((smaValid td.closes p).length - 1) 0 <
              td.closes.getD (td.closes.length - 1) 0 := not_le.mp hpr
          simp [hlen, hmc, checkMarketCap, hm, hnl, hpr, hpr2, h2]
      · simp [hlen, hmc, checkMarketCap, hm]

/-- C9: a ticker passes the coarse filter exactly when its fetch
succeeds, its history has at least `sma_period + 20` bars, its market
capitalization is available and at or above the floor, its last close
is strictly above the last `sma_period`-bar moving-average value, and
the least-squares slope of the most recent 20 moving-average values
normalized to their first value is at or above the threshold; a
fetch failure (per-ticker exception) excludes that ticker only. -/
theorem C9_coarse_filters (tickers : List ℕ)
    (fetch : ℕ → Option TickerData) (p : ℕ) (minCap thr : ℚ) (t : ℕ) :
    t ∈ applyCoarseFilters tickers fetch p minCap thr ↔
      (t ∈ tickers ∧ ∃ td, fetch t = some td ∧
        p + 20 ≤ td.closes.length ∧
        (∃ mc, td.marketCap = some mc ∧ minCap ≤ mc) ∧
        (smaValid td.closes p).getD ((smaValid td.closes p).length - 1) 0 <
          td.closes.getD (td.closes.length - 1) 0 ∧
        thr ≤ lsSlope (normalizeFirst (lastN (smaValid td.closes p) 20))) := by
  unfold applyCoarseFilters
  rw [List.mem_filter]
  constructor
  · rintro ⟨ht, hpred⟩
    refine ⟨ht, ?_⟩
    cases hf : fetch t with
    | none =>
      rw [hf] at hpred
      simp at hpred
    | some td =>
      rw [hf] at hpred
      exact ⟨td, rfl, (processTicker_iff td p minCap thr).mp hpred⟩
  · rintro ⟨ht, td, hf, hcond⟩
    refine ⟨ht, ?_⟩
    rw [hf]
    exact (processTicker_iff td p minCap thr).mpr hcond

/-- C9 witness: a single ticker with 22 bars of history (final close 2
above a flat-then-rising 2-bar moving average), an available market cap
of 5 against a floor of 1, and the threshold instantiated at the
series' own regression slope, passes the filter. -/
theorem C9_coarse_filters_wit :
    0 ∈ applyCoarseFilters [0]
      (fun _ => some ⟨[1, 1, 1, 1, 1, 1, 1, 1, 1, 1, 1, 1, 1, 1, 1, 1,
        1, 1, 1, 1, 1, 2], some 5⟩) 2 1
      (lsSlope (normalizeFirst (lastN (smaValid [1, 1, 1, 1, 1, 1, 1, 1,
        1, 1, 1, 1, 1, 1, 1, 1, 1, 1, 1, 1, 1, 2] 2) 20))) := by
  refine (C9_coarse_filters [0] _ 2 1 _ 0).mpr
    ⟨by simp, ⟨[1, 1, 1, 1, 1, 1, 1, 1, 1, 1, 1, 1, 1, 1, 1, 1, 1, 1, 1,
      1, 1, 2], some 5⟩, rfl, by decide, ⟨5, rfl, by norm_num⟩, ?_,
      le_refl _⟩
  norm_num [smaValid, smaValid_length, List.range_succ]

/-! ### Claim C10: `_filter_significant_extrema`

`sorted(indices, key=lambda idx: values[idx], reverse=is_high)` is a
stable sort by strength — descending values for highs, ascending for
lows — modelled with `List.insertionSort` (stable) under the relation
`strengthRel`; the greedy loop keeps a point when it is more than
`2 * order` positions away from every point already kept, and
`np.sort` restores chronological order at the end. -/

/-- `abs(idx - f_idx)` on natural-number positions. -/
def natDist (i j : ℕ) : ℕ := max i j - min i j

/-- "Is at least as strong": for highs, the value at `i` is at least
the value at `j`; for lows, at most.  Sorting by this relation realizes
`sorted(..., key=values[idx], reverse=is_high)`. -/
def strengthRel (values : ℕ → ℚ) (isHigh : Bool) (i j : ℕ) : Prop :=
  if isHigh then values j ≤ values i else values i ≤ values j

instance (values : ℕ → ℚ) (b : Bool) :
    DecidableRel (strengthRel values b) := fun i j => by
  unfold strengthRel
  split <;> infer_instance

instance (values : ℕ → ℚ) (b : Bool) :
    IsTotal ℕ (strengthRel values b) := by
  refine ⟨fun i j => ?_⟩
  unfold strengthRel
  split <;> exact le_total _ _

instance (values : ℕ → ℚ) (b : Bool) :
    IsTrans ℕ (strengthRel values b) := by
  refine ⟨fun i j k h1 h2 => ?_⟩
  unfold strengthRel at h1 h2 ⊢
  cases b with
  | true =>
    simp at h1 h2 ⊢
    exact le_trans h2 h1
  | false =>
    simp at h1 h2 ⊢
    exact le_trans h1 h2

/-- The greedy selection loop: scan the strength-ordered indices and
keep a point only when it is more than `min_dist` positions away from
every already-kept point. -/
def greedyPick (minDist : ℕ) (acc : List ℕ) : List ℕ → List ℕ
  | [] => acc
  | i :: rest =>
    if acc.all (fun f => decide (minDist < natDist i f)) then
      greedyPick minDist (acc ++ [i]) rest
    else greedyPick minDist acc rest

/-- `_filter_significant_extrema`: with `min_points` or fewer indices
return them unchanged; otherwise sort by strength, greedily keep
points at pairwise distance above `2 * order`, and return the kept
indices in chronological order. -/
def filterSignificantExtrema (indices : List ℕ) (values : ℕ → ℚ)
    (isHigh : Bool) (order minPoints : ℕ) : List ℕ :=
  if indices.length ≤ minPoints then indices
  else
    let minDist := order * 2
    let sortedIdx := indices.insertionSort (strengthRel values isHigh)
    let filtered := greedyPick minDist [] sortedIdx
    filtered.insertionSort (· ≤ ·)

theorem natDist_comm (i j : ℕ) : natDist i j = natDist j i := by
  simp [natDist, Nat.max_comm, Nat.min_comm]

theorem natDist_ne {i j : ℕ} (h : 0 < natDist i j) : i ≠ j := by
  intro he
  subst he
  simp [natDist] at h

theorem greedyPick_sub (m : ℕ) :
    ∀ (l acc : List ℕ), ∀ x ∈ greedyPick m acc l, x ∈ acc ∨ x ∈ l := by
  intro l
  induction l with
  | nil =>
    intro acc x hx
    exact Or.inl hx
  | cons i rest ih =>
    intro acc x hx
    by_cases hall : acc.all (fun f => decide (m < natDist i f)) = true
    · rw [greedyPick, if_pos hall] at hx
      rcases ih (acc ++ [i]) x hx with hacc | hrest
      · rcases List.mem_append.mp hacc with h1 | h1
        · exact Or.inl h1
        · simp at h1
          exact Or.inr (by simp [h1])
      · exact Or.inr (List.mem_cons_of_mem _ hrest)
    · rw [greedyPick, if_neg hall] at hx
      rcases ih acc x hx with h1 | h1
      · exact Or.inl h1
      · exact Or.inr (List.mem_cons_of_mem _ h1)

theorem greedyPick_acc_sub (m : ℕ) :
    ∀ (l acc : List ℕ), ∀ x ∈ acc, x ∈ greedyPick m acc l := by
  intro l
  induction l with
  | nil =>
    intro acc x hx
    exact hx
  | cons i rest ih =>
    intro acc x hx
    by_cases hall : acc.all (fun f => decide (m < natDist i f)) = true
    · rw [greedyPick, if_pos hall]
      exact ih (acc ++ [i]) x (List.mem_append_left _ hx)
    · rw [greedyPick, if_neg hall]
      exact ih acc x hx

theorem greedyPick_pairwise (m : ℕ) :
    ∀ (l acc : List ℕ),
      acc.Pairwise (fun a b => m < natDist a b) →
      (greedyPick m acc l).Pairwise (fun a b => m < natDist a b) := by
  intro l
  induction l with
  | nil =>
    intro acc hacc
    exact hacc
  | cons i rest ih =>
    intro acc hacc
    by_cases hall : acc.all (fun f => decide (m < natDist i f)) = true
    · rw [greedyPick, if_pos hall]
      refine ih (acc ++ [i]) ?_
      rw [List.pairwise_append]
      refine ⟨hacc, List.pairwise_singleton _ _, ?_⟩
      intro a ha b hb
      simp at hb
      subst hb
      have := List.all_eq_true.mp hall a ha
      rw [natDist_comm]
      exact of_decide_eq_true this
    · rw [greedyPick, if_neg hall]
      exact ih acc hacc

theorem greedyPick_first_mem (m : ℕ) (i : ℕ) (rest : List ℕ) :
    i ∈ greedyPick m [] (i :: rest) := by
  rw [greedyPick, if_pos (by simp)]
  exact greedyPick_acc_sub m rest [i] i (by simp)

theorem strengthRel_refl (values : ℕ → ℚ) (b : Bool) (i : ℕ) :
    strengthRel values b i i := by
  unfold strengthRel
  split <;> exact le_refl _

/-- C10: on a strictly increasing array of extremum indices,
`_filter_significant_extrema` returns a subset of the indices in
strictly increasing order; with `min_points` or fewer indices the input
is returned unchanged, and with more the kept indices are pairwise more
than `2 * order` positions apart and always include a strongest
extremum (maximal value for highs, minimal for lows). -/
theorem C10_extrema (indices : List ℕ) (values : ℕ → ℚ) (isHigh : Bool)
    (order minPoints : ℕ) (hsorted : indices.Pairwise (· < ·)) :
    (∀ i ∈ filterSignificantExtrema indices values isHigh order minPoints,
      i ∈ indices) ∧
    (filterSignificantExtrema indices values isHigh order
      minPoints).Pairwise (· < ·) ∧
    (indices.length ≤ minPoints →
      filterSignificantExtrema indices values isHigh order minPoints =
        indices) ∧
    (minPoints < indices.length →
      (filterSignificantExtrema indices values isHigh order
        minPoints).Pairwise (fun i j => order * 2 < natDist i j) ∧
      ∃ s ∈ filterSignificantExtrema indices values isHigh order
        minPoints, ∀ i ∈ indices, strengthRel values isHigh s i) := by
  by_cases hle : indices.length ≤ minPoints
  · rw [filterSignificantExtrema, if_pos hle]
    exact ⟨fun i hi => hi, hsorted, fun _ => rfl,
      fun hlt => absurd hlt (by omega)⟩
  · have hgt : minPoints < indices.length := by omega
    rw [filterSignificantExtrema, if_neg hle]
    dsimp only
    have hperm : List.Perm
        ((greedyPick (order * 2) []
          (indices.insertionSort (strengthRel values isHigh))).insertionSort
          (· ≤ ·))
        (greedyPick (order * 2) []
          (indices.insertionSort (strengthRel values isHigh))) :=
      List.perm_insertionSort _ _
    have hmemout : ∀ x,
        x ∈ (greedyPick (order * 2) []
            (indices.insertionSort (strengthRel values isHigh))).insertionSort
            (· ≤ ·) ↔
        x ∈ greedyPick (order * 2) []
          (indices.insertionSort (strengthRel values isHigh)) :=
      fun x => List.mem_insertionSort _
    have hsub : ∀ x, x ∈ greedyPick (order * 2) []
        (indices.insertionSort (strengthRel values isHigh)) →
        x ∈ indices := by
      intro x hx
      rcases greedyPick_sub (order * 2) _ [] x hx with h1 | h1
      · simp at h1
      · exact (List.mem_insertionSort _).mp h1
    have hpairdist : (greedyPick (order * 2) []
        (indices.insertionSort (strengthRel values isHigh))).Pairwise
        (fun a b => order * 2 < natDist a b) :=
      greedyPick_pairwise (order * 2) _ [] (List.Pairwise.nil)
    have hpairdist_out : ((greedyPick (order * 2) []
        (indices.insertionSort (strengthRel values isHigh))).insertionSort
        (· ≤ ·)).Pairwise (fun a b => order * 2 < natDist a b) := by
      refine (List.Perm.pairwise_iff ?_ hperm).mpr hpairdist
      intro x y hxy
      rwa [natDist_comm]
    refine ⟨?_, ?_, ?_, ?_⟩
    · intro i hi
      exact hsub i ((hmemout i).mp hi)
    · have hsle : ((greedyPick (order * 2) []
          (indices.insertionSort (strengthRel values isHigh))).insertionSort
          (· ≤ ·)).Pairwise (· ≤ ·) :=
        List.sorted_insertionSort _ _
      have hne : ((greedyPick (order * 2) []
          (indices.insertionSort (strengthRel values isHigh))).insertionSort
          (· ≤ ·)).Pairwise (fun a b : ℕ => a ≠ b) :=
        hpairdist_out.imp (fun h => natDist_ne (by omega))
      exact (hsle.and hne).imp (fun h => lt_of_le_of_ne h.1 h.2)
    · intro h
      exact absurd h (by omega)
    · intro _
      refine ⟨hpairdist_out, ?_⟩
      cases hsi : indices.insertionSort (strengthRel values isHigh) with
      | nil =>
        have hlen := List.length_insertionSort (strengthRel values isHigh)
          indices
        rw [hsi] at hlen
        simp at hlen
        exact absurd hgt (by omega)
      | cons s tl =>
        refine ⟨s, ?_, ?_⟩
        · rw [List.mem_insertionSort]
          exact greedyPick_first_mem (order * 2) s tl
        · intro i hi
          have hisort : i ∈ indices.insertionSort
              (strengthRel values isHigh) :=
            (List.mem_insertionSort _).mpr hi
          rw [hsi] at hisort
          rcases List.mem_cons.mp hisort with h1 | h1
          · subst h1
            exact strengthRel_refl values isHigh i
          · have hsort2 : List.Sorted (strengthRel values isHigh)
                (indices.insertionSort (strengthRel values isHigh)) :=
              List.sorted_insertionSort _ _
            rw [hsi] at hsort2
            exact List.rel_of_sorted_cons hsort2 i h1

/-- C10 witness: indices `[0, 3, 10]` with their own position as value
(highs): more than `min_points = 1` indices are given, the result is a
chronologically sorted subset. -/
theorem C10_extrema_wit :
    (∀ i ∈ filterSignificantExtrema [0, 3, 10] (fun i => (i : ℚ)) true 2
      1, i ∈ [0, 3, 10]) ∧
    (filterSignificantExtrema [0, 3, 10] (fun i => (i : ℚ)) true 2
      1).Pairwise (· < ·) := by
  have H := C10_extrema [0, 3, 10] (fun i => (i : ℚ)) true 2 1
    (by decide)
  exact ⟨H.1, H.2.1⟩
